import Mathlib

set_option maxHeartbeats 1000000

namespace ZetaVM

/-- Tagged VM values, the interface of runtime.h as consumed by interp.cpp.
Modelled from the spec: a fixed-width tagged datum with tags for undefined,
boolean, 64-bit integer, string, array, object, host function and
return-address marker; reference tags carry an identity, the return-address
tag carries an optional code address (none models the null pointer). -/
inductive Value where
  | undef : Value
  | bool : Bool → Value
  | int64 : Int → Value
  | str : String → Value
  | arr : Nat → Value
  | obj : Nat → Value
  | hostfn : Nat → Value
  | retaddr : Option Nat → Value
deriving DecidableEq

/-- Modelled from the spec: the raw machine word of a tagged value, as read
by the int64 casts in execCode and by RET through getWord().ptr.
Reference payloads are some nonzero word; the null return address is 0. -/
def wordInt : Value → Int
  | .undef => 0
  | .bool b => if b then 1 else 0
  | .int64 n => n
  | .str _ => 1
  | .arr i => Int.ofNat (i + 1)
  | .obj i => Int.ofNat (i + 1)
  | .hostfn i => Int.ofNat (i + 1)
  | .retaddr none => 0
  | .retaddr (some p) => Int.ofNat (p + 1)

/-- Two's-complement wrap-around of 64-bit signed integer arithmetic. -/
def int64wrap (n : Int) : Int := (n + 2 ^ 63) % 2 ^ 64 - 2 ^ 63

/-- The test getWord().ptr == nullptr performed by RET. -/
def wordPtrIsNull (v : Value) : Bool := wordInt v == 0

/-- Truncating cast to uint16_t applied to the dup index in compile. -/
def toUInt16Nat (n : Int) : Nat := (n % 65536).toNat

/-- An abstract instruction object: the "op" name field plus the
opcode-specific operand fields of the source schema ("val", "idx", "to",
"then", "else"); a missing field is none. Branch-target fields hold block
identities. -/
structure InstrObj where
  op : String
  val : Option Value := none
  idx : Option Int := none
  toBlk : Option Nat := none
  thenBlk : Option Nat := none
  elseBlk : Option Nat := none
deriving DecidableEq

/-- A basic block: its "instrs" array. A block is identified by its index
in the program's block list (reference identity in the source). -/
structure Block where
  instrs : List InstrObj
deriving DecidableEq

/-- A function object: its "num_params", "num_locals" and "entry" fields. -/
structure FunObj where
  num_params : Nat
  num_locals : Nat
  entry : Nat
deriving DecidableEq

/-- The opcodes emitted and executed by the lazy block-versioning engine. -/
inductive Opcode where
  | push
  | dup
  | subI64
  | ltI64
  | gtI64
  | jump
  | jumpStub
  | ifTrue
  | ret
deriving DecidableEq

/-- One slot of the code heap. interp.cpp writes 16-bit opcodes, inline
Values, 16-bit dup indices and pointer-sized branch operands through
writeCode; the model allots one heap cell per written datum, so code
addresses count cells rather than bytes. -/
inductive CodeItem where
  | opcode : Opcode → CodeItem
  | value : Value → CodeItem
  | idx16 : Nat → CodeItem
  | addr : Nat → CodeItem
deriving DecidableEq

/-- A lazily compiled version of a block: startPtr and endPtr are unset
until compile runs (null pointers in the source). -/
structure BlockVersion where
  block : Nat
  startPtr : Option Nat := none
  endPtr : Option Nat := none
deriving DecidableEq

/-- CODE_HEAP_INIT_SIZE: capacity of the code heap (also its limit, since
codeHeapLimit = codeHeap + CODE_HEAP_INIT_SIZE and the model places the
heap at address 0). -/
def CODE_HEAP_INIT_SIZE : Nat := 2 ^ 20

/-- STACK_INIT_SIZE: number of Value slots allocated for the stack. -/
def STACK_INIT_SIZE : Nat := 2 ^ 16

/-- Modelled from the spec: runtime.h is not among the sources; Word is one
64-bit machine word, so sizeof(Word) = 8. -/
def sizeofWord : Nat := 8

/-- stackLimit as an index into the stack array (its low end). -/
def stackLimitIdx : Nat := 0

/-- stackBottom = stackLimit + sizeof(Word): pointer arithmetic on Value*
advances in Value slots, so the bottom sits only sizeof(Word) slots above
the limit. -/
def stackBottomIdx : Nat := stackLimitIdx + sizeofWord

/-- BlockVersion objects live outside the code heap; a version with index
vid is addressed as VERSION_BASE + vid, which never falls inside the code
heap bounds [0, CODE_HEAP_INIT_SIZE). This encodes the source's reliance
on the two allocation regions never overlapping. -/
def VERSION_BASE : Nat := CODE_HEAP_INIT_SIZE

/-- Fatal error conditions: runError models a thrown RunError (a reported
runtime error); assertFail models a failed assert (a programming-contract
violation). -/
inductive VMError where
  | runError : String → VMError
  | assertFail : String → VMError
deriving DecidableEq

/-- The global interpreter state of interp.cpp: the code heap (its
allocation cursor is the list length), the version list and version map,
the value stack and its pointers (as indices into the stack array:
stackLimit = 0, stackBottom = 8), and the instruction pointer.
compileLog instruments the state with the sequence of version ids handed
to compile, recording each invocation of the Compiler. -/
structure VMState where
  heap : List CodeItem
  versions : List BlockVersion
  versionMap : List (Nat × Nat)
  stackSize : Nat
  stackMem : Nat → Value
  stackPtr : Nat
  basePtr : Nat
  instrPtr : Nat
  compileLog : List Nat

/-- initInterp: fresh code heap, stack of STACK_INIT_SIZE slots with
stackPtr = stackBottom. new Value[...] value-initializes the slots, here
to undef. -/
def initState : VMState where
  heap := []
  versions := []
  versionMap := []
  stackSize := STACK_INIT_SIZE
  stackMem := fun _ => Value.undef
  stackPtr := stackBottomIdx
  basePtr := 0
  instrPtr := 0
  compileLog := []

/-- Pointwise update of the stack memory. -/
def writeSlot (i : Nat) (v : Value) (m : Nat → Value) : Nat → Value :=
  fun j => if j = i then v else m j

/-- pushVal: assert stackPtr > stackLimit, decrement, store. -/
def pushVal (v : Value) (s : VMState) : Except VMError VMState :=
  if stackLimitIdx < s.stackPtr then
    .ok { s with stackPtr := s.stackPtr - 1,
                 stackMem := writeSlot (s.stackPtr - 1) v s.stackMem }
  else
    .error (.assertFail "stackPtr > stackLimit")

/-- popVal: assert stackPtr < stackBottom, load, increment. -/
def popVal (s : VMState) : Except VMError (Value × VMState) :=
  if s.stackPtr < stackBottomIdx then
    .ok (s.stackMem s.stackPtr, { s with stackPtr := s.stackPtr + 1 })
  else
    .error (.assertFail "stackPtr < stackBottom")

/-- getBlockVersion: return the existing version of the block, or create a
fresh placeholder version (both offsets unset) and record it in the map.
The source's assert that an existing list holds exactly one version holds
structurally here, the map binding each block to a single version id. -/
def getBlockVersion (block : Nat) (s : VMState) : Nat × VMState :=
  match s.versionMap.lookup block with
  | some vid => (vid, s)
  | none =>
    let vid := s.versions.length
    (vid, { s with versions := s.versions ++ [{ block := block }],
                   versionMap := (block, vid) :: s.versionMap })

/-- writeCode: assert codeHeapAlloc < codeHeapLimit, then append. -/
def emit (it : CodeItem) (s : VMState) : Except VMError VMState :=
  if s.heap.length < CODE_HEAP_INIT_SIZE then
    .ok { s with heap := s.heap ++ [it] }
  else
    .error (.assertFail "codeHeapAlloc < codeHeapLimit")

/-- The fatal message compile throws on an opcode name it does not
handle. -/
def unhandledMsg (op : String) : String :=
  "unhandled opcode in basic block \"" ++ op ++ "\""

/-- The opcode names handled by compile. -/
def handledOps : List String :=
  ["push", "dup", "sub_i64", "lt_i64", "gt_i64", "jump", "if_true", "ret"]

/-- Translation of one abstract instruction inside compile's loop:
dispatch on the op name, read the operand fields (a missing field raises
the inline cache's RunError) and emit the encoded form. jump emits a
JUMP_STUB carrying the target's BlockVersion identity; if_true emits both
target identities. -/
def compileInstr (i : InstrObj) (s : VMState) :
    Except VMError VMState :=
  if i.op = "push" then
    match i.val with
    | none => .error (.runError "missing field \"val\"")
    | some v =>
      match emit (.opcode .push) s with
      | .error e => .error e
      | .ok s1 => emit (.value v) s1
  else if i.op = "dup" then
    match i.idx with
    | none => .error (.runError "missing field \"idx\"")
    | some n =>
      match emit (.opcode .dup) s with
      | .error e => .error e
      | .ok s1 => emit (.idx16 (toUInt16Nat n)) s1
  else if i.op = "sub_i64" then
    emit (.opcode .subI64) s
  else if i.op = "lt_i64" then
    emit (.opcode .ltI64) s
  else if i.op = "gt_i64" then
    emit (.opcode .gtI64) s
  else if i.op = "jump" then
    match i.toBlk with
    | none => .error (.runError "missing field \"to\"")
    | some b =>
      match getBlockVersion b s with
      | (vid, s1) =>
        match emit (.opcode .jumpStub) s1 with
        | .error e => .error e
        | .ok s2 => emit (.addr (VERSION_BASE + vid)) s2
  else if i.op = "if_true" then
    match i.thenBlk with
    | none => .error (.runError "missing field \"then\"")
    | some tb =>
      match i.elseBlk with
      | none => .error (.runError "missing field \"else\"")
      | some eb =>
        match getBlockVersion tb s with
        | (tv, s1) =>
          match getBlockVersion eb s1 with
          | (ev, s2) =>
            match emit (.opcode .ifTrue) s2 with
            | .error e => .error e
            | .ok s3 =>
              match emit (.addr (VERSION_BASE + tv)) s3 with
              | .error e => .error e
              | .ok s4 => emit (.addr (VERSION_BASE + ev)) s4
  else if i.op = "ret" then
    emit (.opcode .ret) s
  else
    .error (.runError (unhandledMsg i.op))

/-- compile's loop over the block's instruction array. -/
def compileInstrs : List InstrObj → VMState → Except VMError VMState
  | [], s => .ok s
  | i :: rest, s =>
    match compileInstr i s with
    | .error e => .error e
    | .ok s1 => compileInstrs rest s1

/-- compile: record the invocation, mark the version's start at the
current allocation cursor, translate each instruction, then mark the end.
A dangling version id or block reference is a contract violation /
missing-field error as in the source. -/
def compile (prog : List Block) (vid : Nat) (s : VMState) :
    Except VMError VMState :=
  match s.versions[vid]? with
  | none => .error (.assertFail "valid version id")
  | some ver =>
    match prog[ver.block]? with
    | none => .error (.runError "missing field \"instrs\"")
    | some blk =>
      let s1 : VMState :=
        { s with compileLog := s.compileLog ++ [vid],
                 versions := s.versions.set vid { ver with startPtr := some s.heap.length } }
      match compileInstrs blk.instrs s1 with
      | .error e => .error e
      | .ok s2 =>
        match s2.versions[vid]? with
        | none => .error (.assertFail "valid version id")
        | some ver2 =>
          .ok { s2 with versions := s2.versions.set vid { ver2 with endPtr := some s2.heap.length } }

/-- Outcome of one iteration of the Dispatcher loop: continue at a new
state, or return a value (RET with a null return-address marker). -/
inductive StepOut where
  | next : VMState → StepOut
  | done : Value → VMState → StepOut

/-- The state carried by a step outcome. -/
def stepOutState : StepOut → VMState
  | .next s => s
  | .done _ s => s

/-- One iteration of execCode's fetch-decode-execute loop. Decoding a heap
cell of the wrong kind is a contract violation (the source would
reinterpret raw bytes). JUMP_STUB compiles its target when the target's
code is absent, overwrites the opcode in place with JUMP and the operand
with the start address, and transfers control there. IF_TRUE pops the
condition and resolves only the taken side, detecting an unresolved
operand by its address falling outside the code heap bounds. -/
def step (prog : List Block) (s : VMState) : Except VMError StepOut :=
  let p := s.instrPtr
  match s.heap[p]? with
  | some (.opcode o) =>
    let s : VMState := { s with instrPtr := p + 1 }
    match o with
    | .push =>
      match s.heap[p + 1]? with
      | some (.value v) =>
        match pushVal v { s with instrPtr := p + 2 } with
        | .error e => .error e
        | .ok s1 => .ok (.next s1)
      | _ => .error (.assertFail "code decode")
    | .dup =>
      match s.heap[p + 1]? with
      | some (.idx16 idx) =>
        let s : VMState := { s with instrPtr := p + 2 }
        match pushVal (s.stackMem (s.stackPtr + idx)) s with
        | .error e => .error e
        | .ok s1 => .ok (.next s1)
      | _ => .error (.assertFail "code decode")
    | .subI64 =>
      match popVal s with
      | .error e => .error e
      | .ok (arg1, s1) =>
        match popVal s1 with
        | .error e => .error e
        | .ok (arg0, s2) =>
          match pushVal (.int64 (int64wrap (wordInt arg0 - wordInt arg1))) s2 with
          | .error e => .error e
          | .ok s3 => .ok (.next s3)
    | .ltI64 =>
      match popVal s with
      | .error e => .error e
      | .ok (arg1, s1) =>
        match popVal s1 with
        | .error e => .error e
        | .ok (arg0, s2) =>
          match pushVal (.bool (wordInt arg0 < wordInt arg1)) s2 with
          | .error e => .error e
          | .ok s3 => .ok (.next s3)
    | .gtI64 =>
      match popVal s with
      | .error e => .error e
      | .ok (arg1, s1) =>
        match popVal s1 with
        | .error e => .error e
        | .ok (arg0, s2) =>
          match pushVal (.bool (wordInt arg1 < wordInt arg0)) s2 with
          | .error e => .error e
          | .ok s3 => .ok (.next s3)
    | .jumpStub =>
      match s.heap[p + 1]? with
      | some (.addr a) =>
        let s : VMState := { s with instrPtr := p + 2 }
        if a < VERSION_BASE then .error (.assertFail "version pointer")
        else
          let vid := a - VERSION_BASE
          match s.versions[vid]? with
          | none => .error (.assertFail "valid version id")
          | some ver =>
            match ver.startPtr with
            | some st =>
              .ok (.next { s with
                heap := (s.heap.set p (.opcode .jump)).set (p + 1) (.addr st),
                instrPtr := st })
            | none =>
              match compile prog vid s with
              | .error e => .error e
              | .ok s1 =>
                match s1.versions[vid]? with
                | none => .error (.assertFail "valid version id")
                | some ver1 =>
                  match ver1.startPtr with
                  | none => .error (.assertFail "compiled start pointer")
                  | some st =>
                    .ok (.next { s1 with
                      heap := (s1.heap.set p (.opcode .jump)).set (p + 1) (.addr st),
                      instrPtr := st })
      | _ => .error (.assertFail "code decode")
    | .jump =>
      match s.heap[p + 1]? with
      | some (.addr a) => .ok (.next { s with instrPtr := a })
      | _ => .error (.assertFail "code decode")
    | .ifTrue =>
      match s.heap[p + 1]? with
      | some (.addr ta) =>
        match s.heap[p + 2]? with
        | some (.addr ea) =>
          let s : VMState := { s with instrPtr := p + 3 }
          match popVal s with
          | .error e => .error e
          | .ok (arg0, s1) =>
            if arg0 = Value.bool true then
              if ta < CODE_HEAP_INIT_SIZE then
                .ok (.next { s1 with instrPtr := ta })
              else
                let tv := ta - VERSION_BASE
                match s1.versions[tv]? with
                | none => .error (.assertFail "valid version id")
                | some ver =>
                  match ver.startPtr with
                  | some st =>
                    .ok (.next { s1 with
                      heap := s1.heap.set (p + 1) (.addr st), instrPtr := st })
                  | none =>
                    match compile prog tv s1 with
                    | .error e => .error e
                    | .ok s2 =>
                      match s2.versions[tv]? with
                      | none => .error (.assertFail "valid version id")
                      | some ver2 =>
                        match ver2.startPtr with
                        | none => .error (.assertFail "compiled start pointer")
                        | some st =>
                          .ok (.next { s2 with
                            heap := s2.heap.set (p + 1) (.addr st),
                            instrPtr := st })
            else
              if ea < CODE_HEAP_INIT_SIZE then
                .ok (.next { s1 with instrPtr := ea })
              else
                let ev := ea - VERSION_BASE
                match s1.versions[ev]? with
                | none => .error (.assertFail "valid version id")
                | some ver =>
                  match ver.startPtr with
                  | some st =>
                    .ok (.next { s1 with
                      heap := s1.heap.set (p + 2) (.addr st), instrPtr := st })
                  | none =>
                    match compile prog ev s1 with
                    | .error e => .error e
                    | .ok s2 =>
                      match s2.versions[ev]? with
                      | none => .error (.assertFail "valid version id")
                      | some ver2 =>
                        match ver2.startPtr with
                        | none => .error (.assertFail "compiled start pointer")
                        | some st =>
                          .ok (.next { s2 with
                            heap := s2.heap.set (p + 2) (.addr st),
                            instrPtr := st })
        | _ => .error (.assertFail "code decode")
      | _ => .error (.assertFail "code decode")
    | .ret =>
      let raVal := s.stackMem (s.basePtr + 1)
      match popVal s with
      | .error e => .error e
      | .ok (v, s1) =>
        if wordPtrIsNull raVal then .ok (.done v s1)
        else .error (.assertFail "nested return not implemented")
  | _ => .error (.assertFail "code decode")

/-- The Dispatcher loop, bounded by fuel (the source loops until RET or a
fatal error; running out of fuel is a model artifact, not a source
behavior). -/
def execLoop (prog : List Block) : Nat → VMState → Except VMError (Value × VMState)
  | 0, _ => .error (.assertFail "out of fuel")
  | fuel + 1, s =>
    match step prog s with
    | .error e => .error e
    | .ok (.done v s1) => .ok (v, s1)
    | .ok (.next s1) => execLoop prog fuel s1

/-- execCode: assert the instruction pointer lies inside the code heap,
then run the loop. -/
def execCode (prog : List Block) (fuel : Nat) (s : VMState) :
    Except VMError (Value × VMState) :=
  if s.instrPtr < CODE_HEAP_INIT_SIZE then execLoop prog fuel s
  else .error (.assertFail "instrPtr within code heap")

/-- Copy the arguments into the leading slots from basePtr upward:
basePtr[i] = args[i]. -/
def copyArgsFrom (base : Nat) : Nat → List Value → (Nat → Value) → Nat → Value
  | _, [], m => m
  | i, a :: rest, m => copyArgsFrom base (i + 1) rest (writeSlot (base + i) a m)

/-- Frame setup of callFun (the part before the entry block is resolved):
assert the argument/parameter/local counts, assert the stack is at its
bottom, push the placeholder caller value and the null return-address
marker, set basePtr = stackPtr - 1, reserve the locals (asserting
stackPtr >= stackLimit), and copy the arguments to basePtr[i]. -/
def pushFrame (f : FunObj) (args : List Value) (s : VMState) :
    Except VMError VMState :=
  if ¬ args.length ≤ f.num_params then
    .error (.assertFail "args.size() <= numParams")
  else if ¬ f.num_params ≤ f.num_locals then
    .error (.assertFail "numParams <= numLocals")
  else if ¬ s.stackPtr = stackBottomIdx then
    .error (.assertFail "stackPtr == stackBottom")
  else
    match pushVal (.int64 0) s with
    | .error e => .error e
    | .ok s1 =>
      match pushVal (.retaddr none) s1 with
      | .error e => .error e
      | .ok s2 =>
        let s3 : VMState := { s2 with basePtr := s2.stackPtr - 1 }
        if ¬ f.num_locals ≤ s3.stackPtr then
          .error (.assertFail "stackPtr >= stackLimit")
        else
          let s4 : VMState := { s3 with stackPtr := s3.stackPtr - f.num_locals }
          .ok { s4 with stackMem := copyArgsFrom s4.basePtr 0 args s4.stackMem }

/-- callFun: set up the frame, get the entry block's version, compile it
(unconditionally), assert the compiled body is nonempty, execute from its
start, then release the locals and the two header slots and assert the
stack pointer is back at the bottom. -/
def callFun (prog : List Block) (f : FunObj) (args : List Value) (fuel : Nat)
    (s : VMState) : Except VMError (Value × VMState) :=
  match pushFrame f args s with
  | .error e => .error e
  | .ok sF =>
    match getBlockVersion f.entry sF with
    | (vid, sG) =>
      match compile prog vid sG with
      | .error e => .error e
      | .ok sC =>
        match sC.versions[vid]? with
        | none => .error (.assertFail "valid version id")
        | some ver =>
          match ver.startPtr with
          | none => .error (.assertFail "compiled start pointer")
          | some st =>
            match ver.endPtr with
            | none => .error (.assertFail "compiled end pointer")
            | some en =>
              if ¬ st < en then
                .error (.assertFail "entryVer->length() > 0")
              else
                match execCode prog fuel { sC with instrPtr := st } with
                | .error e => .error e
                | .ok (v, sE) =>
                  let sR : VMState :=
                    { sE with stackPtr := sE.stackPtr + f.num_locals + 2 }
                  if ¬ sR.stackPtr = stackBottomIdx then
                    .error (.assertFail "stackPtr == stackBottom")
                  else
                    .ok (v, sR)

/-- Instruction-object shorthands used by the concrete programs below. -/
def pushInstr (v : Value) : InstrObj := { op := "push", val := some v }

def retInstr : InstrObj := { op := "ret" }

def dupInstr (n : Int) : InstrObj := { op := "dup", idx := some n }

def subInstr : InstrObj := { op := "sub_i64" }

/-- A one-block program whose entry block is push v; ret. -/
def progPushRet (v : Value) : List Block := [{ instrs := [pushInstr v, retInstr] }]

/-- The test image ex_ret_cst: a function returning the constant 777. -/
def prog1 : List Block := progPushRet (.int64 777)

/-- A function with no parameters and no locals, entry block 0. -/
def fun0 : FunObj := { num_params := 0, num_locals := 0, entry := 0 }

/-- A function declaring one parameter and one local. -/
def fun11 : FunObj := { num_params := 1, num_locals := 1, entry := 0 }

/-- A function declaring two parameters and two locals. -/
def fun22 : FunObj := { num_params := 2, num_locals := 2, entry := 0 }

/-- Two integer arguments for fun22. -/
def args22 : List Value := [Value.int64 10, Value.int64 20]

/-- A one-block program push 5; dup 1; sub_i64; ret. At the dup the
operand stack holds a single value, so the 16-bit index 1 is out of
bounds for the operand area. -/
def prog3 : List Block :=
  [{ instrs := [pushInstr (Value.int64 5), dupInstr 1, subInstr, retInstr] }]

/-- The state reached in the prog3 run right after the PUSH executed: the
frame header sits at slots 7 (saved caller) and 6 (null return-address
marker), basePtr = 5, the operand area is the single slot 5 holding 5,
and the dup instruction is next. -/
def dupProbeState : VMState :=
  { initState with
    heap := [.opcode .push, .value (.int64 5), .opcode .dup, .idx16 1,
             .opcode .subI64, .opcode .ret],
    instrPtr := 2, stackPtr := 5, basePtr := 5,
    stackMem := writeSlot 5 (.int64 5)
      (writeSlot 6 (.retaddr none) (writeSlot 7 (.int64 0) initState.stackMem)),
    versions := [{ block := 0, startPtr := some 0, endPtr := some 6 }],
    versionMap := [(0, 0)],
    compileLog := [0] }

/-- A state whose next instruction is a resolved direct jump to address
0. -/
def jumpProbeState : VMState :=
  { initState with heap := [.opcode .jump, .addr 0], instrPtr := 0 }

/-- A one-block program holding only ret. -/
def progRetOnly : List Block := [{ instrs := [retInstr] }]

/-- A state about to execute an IF_TRUE whose then and else operands name
the same unresolved BlockVersion (version 0 of block 0), with true on top
of the operand stack. -/
def ifSameState : VMState :=
  { initState with
    heap := [.opcode .ifTrue, .addr VERSION_BASE, .addr VERSION_BASE],
    instrPtr := 0, stackPtr := 5, basePtr := 5,
    stackMem := writeSlot 5 (.bool true) initState.stackMem,
    versions := [{ block := 0 }],
    versionMap := [(0, 0)] }

/-- A state about to execute an IF_TRUE with a resolved then operand
(address 0) and an unresolved else operand (version 1), with true on top
of the operand stack. -/
def ifProbeState : VMState :=
  { initState with
    heap := [.opcode .ifTrue, .addr 0, .addr (VERSION_BASE + 1)],
    instrPtr := 0, stackPtr := 5, basePtr := 5,
    stackMem := writeSlot 5 (.bool true) initState.stackMem,
    versions := [{ block := 0, startPtr := some 0, endPtr := some 3 }, { block := 1 }],
    versionMap := [(0, 0), (1, 1)] }

/-- An instruction whose op name the Dispatcher knows but compile does
not handle. -/
def addInstr : InstrObj := { op := "add_i64" }

/-- Effect envelope of the code-generation helpers: the heap only grows
(existing cells keep their content), existing version entries are
untouched, versions are only appended, and the compile log is
unchanged. -/
def IExt (s s1 : VMState) : Prop :=
  (∀ (q : Nat) (x : CodeItem), s.heap[q]? = some x → s1.heap[q]? = some x)
  ∧ s.heap.length ≤ s1.heap.length
  ∧ (∀ w : Nat, w < s.versions.length → s1.versions[w]? = s.versions[w]?)
  ∧ s.versions.length ≤ s1.versions.length
  ∧ s1.compileLog = s.compileLog

/-- C1: getBlockVersion does return the existing version on a repeat
request, but callFun invokes compile unconditionally, so a second
top-level call of the same function recompiles its (single) entry
version into a fresh code-heap range. After one call of the push-777
function the sole version spans cells 0..3 and the Compiler ran once;
after a second call the same version spans cells 3..6 and the Compiler
ran twice for version 0 — not the same byte range both times. -/
theorem c1_entry_recompiled_on_second_call :
    ((callFun prog1 fun0 [] 9 initState).map
        (fun r => (r.2.versions.map (fun ver => (ver.startPtr, ver.endPtr)),
                   r.2.compileLog))
      = .ok ([(some 0, some 3)], [0]))
    ∧ (((callFun prog1 fun0 [] 9 initState).bind
          (fun r => callFun prog1 fun0 [] 9 r.2)).map
        (fun r => (r.2.versions.map (fun ver => (ver.startPtr, ver.endPtr)),
                   r.2.compileLog))
      = .ok ([(some 3, some 6)], [0, 0])) := by
  constructor
  · simp [callFun, pushFrame, pushVal, popVal, getBlockVersion, compile, compileInstrs,
        compileInstr, emit, execCode, execLoop, step, writeSlot, copyArgsFrom, initState,
        prog1, prog3, progPushRet, fun0, fun11, fun22, args22, pushInstr, retInstr,
        dupInstr, subInstr, stackBottomIdx, stackLimitIdx, dupProbeState, stepOutState,
        sizeofWord, CODE_HEAP_INIT_SIZE, VERSION_BASE, STACK_INIT_SIZE, toUInt16Nat,
        int64wrap, wordPtrIsNull, wordInt, unhandledMsg, List.lookup, Except.map,
        Except.bind]
  · simp [callFun, pushFrame, pushVal, popVal, getBlockVersion, compile, compileInstrs,
        compileInstr, emit, execCode, execLoop, step, writeSlot, copyArgsFrom, initState,
        prog1, prog3, progPushRet, fun0, fun11, fun22, args22, pushInstr, retInstr,
        dupInstr, subInstr, stackBottomIdx, stackLimitIdx, dupProbeState, stepOutState,
        sizeofWord, CODE_HEAP_INIT_SIZE, VERSION_BASE, STACK_INIT_SIZE, toUInt16Nat,
        int64wrap, wordPtrIsNull, wordInt, unhandledMsg, List.lookup, Except.map,
        Except.bind]

/-- C3: execCode's DUP performs no bounds check. In the prog3 run the dup
index 1 equals the operand-stack depth, yet the run completes without any
error (returning 5 = 5 - 0, the 0 being the word of the frame-header
slot it read), and a single dup step from the probe state pushes the
content of slot 6 — the frame's return-address marker, outside the
operand area. -/
theorem c3_dup_unchecked_reads_frame_header :
    ((callFun prog3 fun0 [] 9 initState).map Prod.fst = .ok (Value.int64 5))
    ∧ ((step prog3 dupProbeState).map
        (fun o => ((stepOutState o).stackPtr, (stepOutState o).stackMem 4))
      = .ok (4, Value.retaddr none)) := by
  constructor
  · simp [callFun, pushFrame, pushVal, popVal, getBlockVersion, compile, compileInstrs,
        compileInstr, emit, execCode, execLoop, step, writeSlot, copyArgsFrom, initState,
        prog1, prog3, progPushRet, fun0, fun11, fun22, args22, pushInstr, retInstr,
        dupInstr, subInstr, stackBottomIdx, stackLimitIdx, dupProbeState, stepOutState,
        sizeofWord, CODE_HEAP_INIT_SIZE, VERSION_BASE, STACK_INIT_SIZE, toUInt16Nat,
        int64wrap, wordPtrIsNull, wordInt, unhandledMsg, List.lookup, Except.map,
        Except.bind]
  · simp [callFun, pushFrame, pushVal, popVal, getBlockVersion, compile, compileInstrs,
        compileInstr, emit, execCode, execLoop, step, writeSlot, copyArgsFrom, initState,
        prog1, prog3, progPushRet, fun0, fun11, fun22, args22, pushInstr, retInstr,
        dupInstr, subInstr, stackBottomIdx, stackLimitIdx, dupProbeState, stepOutState,
        sizeofWord, CODE_HEAP_INIT_SIZE, VERSION_BASE, STACK_INIT_SIZE, toUInt16Nat,
        int64wrap, wordPtrIsNull, wordInt, unhandledMsg, List.lookup, Except.map,
        Except.bind]

/-- C4: after frame setup for a two-argument call, basePtr = 5 while the
saved-caller slot is stackBottom - 1 = 7, and argument 1 is stored at
basePtr + 1 = 6 — exactly the slot RET reads as the return-address
marker, which the copy overwrites; the full call therefore dies in RET's
nested-return assert even though it is a top-level call. -/
theorem c4_arg1_lands_on_retaddr_slot :
    ((pushFrame fun22 args22 initState).map
        (fun s => (s.basePtr, s.stackMem (s.basePtr + 1),
                   s.stackMem (stackBottomIdx - 1)))
      = .ok (5, Value.int64 20, Value.int64 0))
    ∧ (callFun prog1 fun22 args22 9 initState
      = .error (.assertFail "nested return not implemented")) := by
  constructor
  · simp [callFun, pushFrame, pushVal, popVal, getBlockVersion, compile, compileInstrs,
        compileInstr, emit, execCode, execLoop, step, writeSlot, copyArgsFrom, initState,
        prog1, prog3, progPushRet, fun0, fun11, fun22, args22, pushInstr, retInstr,
        dupInstr, subInstr, stackBottomIdx, stackLimitIdx, dupProbeState, stepOutState,
        sizeofWord, CODE_HEAP_INIT_SIZE, VERSION_BASE, STACK_INIT_SIZE, toUInt16Nat,
        int64wrap, wordPtrIsNull, wordInt, unhandledMsg, List.lookup, Except.map,
        Except.bind]
  · simp [callFun, pushFrame, pushVal, popVal, getBlockVersion, compile, compileInstrs,
        compileInstr, emit, execCode, execLoop, step, writeSlot, copyArgsFrom, initState,
        prog1, prog3, progPushRet, fun0, fun11, fun22, args22, pushInstr, retInstr,
        dupInstr, subInstr, stackBottomIdx, stackLimitIdx, dupProbeState, stepOutState,
        sizeofWord, CODE_HEAP_INIT_SIZE, VERSION_BASE, STACK_INIT_SIZE, toUInt16Nat,
        int64wrap, wordPtrIsNull, wordInt, unhandledMsg, List.lookup, Except.map,
        Except.bind]

/-- C5 counterexample: calling a function declaring one parameter with an
empty argument list raises no error at all — the body runs and the call
returns 777. -/
theorem c5_underapplied_call_runs_body :
    (callFun prog1 fun11 [] 9 initState).map Prod.fst
      = .ok (Value.int64 777) := by
  simp [callFun, pushFrame, pushVal, popVal, getBlockVersion, compile, compileInstrs,
        compileInstr, emit, execCode, execLoop, step, writeSlot, copyArgsFrom, initState,
        prog1, prog3, progPushRet, fun0, fun11, fun22, args22, pushInstr, retInstr,
        dupInstr, subInstr, stackBottomIdx, stackLimitIdx, dupProbeState, stepOutState,
        sizeofWord, CODE_HEAP_INIT_SIZE, VERSION_BASE, STACK_INIT_SIZE, toUInt16Nat,
        int64wrap, wordPtrIsNull, wordInt, unhandledMsg, List.lookup, Except.map,
        Except.bind]

/-- C8: a single-block function push v; ret with no parameters, invoked
through callFun with no arguments, returns exactly v — in particular 777
for v = 777. -/
theorem c8_push_ret_returns_pushed_value :
    (∀ v : Value,
      (callFun (progPushRet v) fun0 [] 9 initState).map Prod.fst = .ok v)
    ∧ (callFun prog1 fun0 [] 9 initState).map Prod.fst
        = .ok (Value.int64 777) := by
  constructor
  · intro v
    simp [callFun, pushFrame, pushVal, popVal, getBlockVersion, compile, compileInstrs,
        compileInstr, emit, execCode, execLoop, step, writeSlot, copyArgsFrom, initState,
        prog1, prog3, progPushRet, fun0, fun11, fun22, args22, pushInstr, retInstr,
        dupInstr, subInstr, stackBottomIdx, stackLimitIdx, dupProbeState, stepOutState,
        sizeofWord, CODE_HEAP_INIT_SIZE, VERSION_BASE, STACK_INIT_SIZE, toUInt16Nat,
        int64wrap, wordPtrIsNull, wordInt, unhandledMsg, List.lookup, Except.map,
        Except.bind]
  · simp [callFun, pushFrame, pushVal, popVal, getBlockVersion, compile, compileInstrs,
        compileInstr, emit, execCode, execLoop, step, writeSlot, copyArgsFrom, initState,
        prog1, prog3, progPushRet, fun0, fun11, fun22, args22, pushInstr, retInstr,
        dupInstr, subInstr, stackBottomIdx, stackLimitIdx, dupProbeState, stepOutState,
        sizeofWord, CODE_HEAP_INIT_SIZE, VERSION_BASE, STACK_INIT_SIZE, toUInt16Nat,
        int64wrap, wordPtrIsNull, wordInt, unhandledMsg, List.lookup, Except.map,
        Except.bind]

theorem lt_of_getElem?_some {α : Type} {l : List α} {i : Nat} {a : α}
    (h : l[i]? = some a) : i < l.length :=
  List.getElem?_eq_some_iff.mp h |>.1

theorem set_keeps {α : Type} {l : List α} {q i : Nat} {x v y : α}
    (hq : l[q]? = some v) (hi : l[i]? = some y) (hy : y ≠ v) :
    (l.set i x)[q]? = some v := by
  have hne : i ≠ q := by
    intro he
    rw [he, hq] at hi
    exact hy (Option.some.inj hi).symm
  rw [List.getElem?_set_ne hne]
  exact hq

theorem iExt_refl (s : VMState) : IExt s s :=
  ⟨fun _ _ h => h, le_refl _, fun _ _ => rfl, le_refl _, rfl⟩

theorem iExt_trans {a b c : VMState} (h1 : IExt a b) (h2 : IExt b c) : IExt a c := by
  obtain ⟨p1, l1, v1, w1, g1⟩ := h1
  obtain ⟨p2, l2, v2, w2, g2⟩ := h2
  refine ⟨fun q x h => p2 q x (p1 q x h), le_trans l1 l2, ?_, le_trans w1 w2, g2.trans g1⟩
  intro w hw
  rw [v2 w (lt_of_lt_of_le hw w1), v1 w hw]

theorem emit_iExt {it : CodeItem} {s s1 : VMState} (h : emit it s = .ok s1) :
    IExt s s1 := by
  unfold emit at h
  split at h
  · rw [Except.ok.injEq] at h
    subst h
    refine ⟨?_, by simp, fun _ _ => rfl, le_refl _, rfl⟩
    intro q x hq
    simpa [List.getElem?_append_left (lt_of_getElem?_some hq)] using hq
  · exact absurd h (by simp)

theorem getBlockVersion_iExt (b : Nat) (s : VMState) :
    IExt s (getBlockVersion b s).2 := by
  unfold getBlockVersion
  split
  · exact iExt_refl s
  · refine ⟨fun _ _ h => h, le_refl _, ?_, by simp, rfl⟩
    intro w hw
    exact List.getElem?_append_left hw

theorem compileInstr_iExt {i : InstrObj} {s s1 : VMState}
    (h : compileInstr i s = .ok s1) : IExt s s1 := by
  unfold compileInstr at h
  split at h
  · -- push
    split at h
    · exact absurd h (by simp)
    · split at h
      · exact absurd h (by simp)
      · rename_i sa ha
        exact iExt_trans (emit_iExt ha) (emit_iExt h)
  · split at h
    · -- dup
      split at h
      · exact absurd h (by simp)
      · split at h
        · exact absurd h (by simp)
        · rename_i sa ha
          exact iExt_trans (emit_iExt ha) (emit_iExt h)
    · split at h
      · exact emit_iExt h
      · split at h
        · exact emit_iExt h
        · split at h
          · exact emit_iExt h
          · split at h
            · -- jump
              split at h
              · exact absurd h (by simp)
              · rename_i bv hbv
                split at h
                rename_i vid sG hG
                split at h
                · exact absurd h (by simp)
                · rename_i sa ha
                  have e1 : IExt s sG := by
                    have e0 := getBlockVersion_iExt bv s
                    rw [hG] at e0
                    exact e0
                  exact iExt_trans e1 (iExt_trans (emit_iExt ha) (emit_iExt h))
            · split at h
              · -- if_true
                split at h
                · exact absurd h (by simp)
                · rename_i tbv htbv
                  split at h
                  · exact absurd h (by simp)
                  · rename_i ebv hebv
                    split at h
                    rename_i tv sG hG
                    split at h
                    rename_i ev sG2 hG2
                    split at h
                    · exact absurd h (by simp)
                    · rename_i sa ha
                      split at h
                      · exact absurd h (by simp)
                      · rename_i sb hb
                        have e1 : IExt s sG := by
                          have e0 := getBlockVersion_iExt tbv s
                          rw [hG] at e0
                          exact e0
                        have e2 : IExt sG sG2 := by
                          have e0 := getBlockVersion_iExt ebv sG
                          rw [hG2] at e0
                          exact e0
                        exact iExt_trans e1 (iExt_trans e2
                          (iExt_trans (emit_iExt ha)
                            (iExt_trans (emit_iExt hb) (emit_iExt h))))
              · split at h
                · exact emit_iExt h
                · exact absurd h (by simp)

theorem compileInstrs_iExt {l : List InstrObj} :
    ∀ {s s1 : VMState}, compileInstrs l s = .ok s1 → IExt s s1 := by
  induction l with
  | nil =>
    intro s s1 h
    unfold compileInstrs at h
    rw [Except.ok.injEq] at h
    subst h
    exact iExt_refl s
  | cons i rest ih =>
    intro s s1 h
    unfold compileInstrs at h
    split at h
    · exact absurd h (by simp)
    · rename_i sa ha
      exact iExt_trans (compileInstr_iExt ha) (ih h)

theorem compile_ok_spec {prog : List Block} {vid : Nat} {s s1 : VMState}
    (h : compile prog vid s = .ok s1) :
    (∀ (q : Nat) (x : CodeItem), s.heap[q]? = some x → s1.heap[q]? = some x)
    ∧ s.heap.length ≤ s1.heap.length
    ∧ s1.compileLog = s.compileLog ++ [vid]
    ∧ (∀ w : Nat, w < s.versions.length → w ≠ vid →
        s1.versions[w]? = s.versions[w]?)
    ∧ s.versions.length ≤ s1.versions.length
    ∧ (∃ blk en : Nat, s1.versions[vid]? =
        some { block := blk, startPtr := some s.heap.length, endPtr := some en }) := by
  unfold compile at h
  split at h
  · exact absurd h (by simp)
  · rename_i ver hver
    split at h
    · exact absurd h (by simp)
    · rename_i blk hblk
      simp only [] at h
      split at h
      · exact absurd h (by simp)
      · rename_i s2 hcs
        split at h
        · exact absurd h (by simp)
        · rename_i ver2 hver2
          rw [Except.ok.injEq] at h
          subst h
          obtain ⟨hp, hl, hv, hw, hg⟩ := compileInstrs_iExt hcs
          have hvidlt : vid < s.versions.length := lt_of_getElem?_some hver
          have hmidlen : (s.versions.set vid
              { ver with startPtr := some s.heap.length }).length
              = s.versions.length := by simp
          have hmid : s2.versions[vid]?
              = some { ver with startPtr := some s.heap.length } := by
            have e1 := hv vid (by rw [hmidlen]; exact hvidlt)
            rw [e1, List.getElem?_set_self hvidlt]
          have hver2eq : ver2 = { ver with startPtr := some s.heap.length } := by
            rw [hver2] at hmid
            exact Option.some.inj hmid
          have hvid2lt : vid < s2.versions.length := lt_of_getElem?_some hver2
          refine ⟨fun q x hx => hp q x hx, hl, hg.trans rfl, ?_, ?_, ?_⟩
          · intro w hwlt hwne
            have e1 : (s2.versions.set vid
                { ver2 with endPtr := some s2.heap.length })[w]?
                = s2.versions[w]? :=
              List.getElem?_set_ne (fun he => hwne he.symm)
            have e2 := hv w (by rw [hmidlen]; exact hwlt)
            have e3 : (s.versions.set vid
                { ver with startPtr := some s.heap.length })[w]?
                = s.versions[w]? :=
              List.getElem?_set_ne (fun he => hwne he.symm)
            rw [e1, e2, e3]
          · calc s.versions.length
                = (s.versions.set vid
                    { ver with startPtr := some s.heap.length }).length := by simp
              _ ≤ s2.versions.length := hw
              _ = (s2.versions.set vid
                    { ver2 with endPtr := some s2.heap.length }).length := by simp
          · refine ⟨ver.block, s2.heap.length, ?_⟩
            rw [List.getElem?_set_self hvid2lt, hver2eq]

theorem step_jump_direct {prog : List Block} {s : VMState} {a : Nat}
    (h1 : s.heap[s.instrPtr]? = some (.opcode .jump))
    (h2 : s.heap[s.instrPtr + 1]? = some (.addr a)) :
    step prog s = .ok (.next { s with instrPtr := a }) := by
  unfold step
  simp only [h1, h2]

theorem step_jumpStub_cached {prog : List Block} {s : VMState}
    {a vid : Nat} {ver : BlockVersion} {st : Nat}
    (h1 : s.heap[s.instrPtr]? = some (.opcode .jumpStub))
    (h2 : s.heap[s.instrPtr + 1]? = some (.addr a))
    (h3 : a = VERSION_BASE + vid)
    (h4 : s.versions[vid]? = some ver)
    (h5 : ver.startPtr = some st) :
    step prog s = .ok (.next { s with
      heap := (s.heap.set s.instrPtr (.opcode .jump)).set
        (s.instrPtr + 1) (.addr st),
      instrPtr := st }) := by
  have hnl : ¬ a < VERSION_BASE := by omega
  have hsub : a - VERSION_BASE = vid := by omega
  unfold step
  simp only [h1, h2, hnl, if_false, hsub, h4, h5]

theorem step_jumpStub_fresh {prog : List Block} {s : VMState}
    {a vid : Nat} {ver : BlockVersion} {s1 : VMState}
    (h1 : s.heap[s.instrPtr]? = some (.opcode .jumpStub))
    (h2 : s.heap[s.instrPtr + 1]? = some (.addr a))
    (h3 : a = VERSION_BASE + vid)
    (h4 : s.versions[vid]? = some ver)
    (h5 : ver.startPtr = none)
    (h6 : step prog s = .ok (.next s1)) :
    s1.heap[s.instrPtr]? = some (.opcode .jump)
    ∧ s1.compileLog = s.compileLog ++ [vid]
    ∧ ∃ st : Nat, s1.heap[s.instrPtr + 1]? = some (.addr st)
        ∧ s1.instrPtr = st
        ∧ ∃ ver1 : BlockVersion, s1.versions[vid]? = some ver1
            ∧ ver1.startPtr = some st := by
  have hnl : ¬ a < VERSION_BASE := by omega
  have hsub : a - VERSION_BASE = vid := by omega
  unfold step at h6
  simp only [h1, h2, hnl, if_false, hsub, h4, h5] at h6
  split at h6
  · exact absurd h6 (by simp)
  · rename_i sC hC
    obtain ⟨hp, hl, hg, hvne, hvlen, blk, en, hself⟩ := compile_ok_spec hC
    rw [hself] at h6
    simp only [] at h6
    rw [Except.ok.injEq, StepOut.next.injEq] at h6
    subst h6
    have hpl : s.instrPtr < sC.heap.length := lt_of_getElem?_some (hp _ _ h1)
    have hpl1 : s.instrPtr + 1 < sC.heap.length := lt_of_getElem?_some (hp _ _ h2)
    refine ⟨?_, hg, ?_⟩
    · rw [List.getElem?_set_ne (by omega)]
      exact List.getElem?_set_self hpl
    · refine ⟨s.heap.length, ?_, rfl, ?_⟩
      · rw [List.getElem?_set_self (by simpa using hpl1)]
      · exact ⟨_, hself, rfl⟩

theorem popVal_heap {s : VMState} {v : Value} {s1 : VMState}
    (h : popVal s = .ok (v, s1)) :
    s1.heap = s.heap ∧ s1.versions = s.versions ∧ s1.compileLog = s.compileLog := by
  unfold popVal at h
  split at h
  · rw [Except.ok.injEq, Prod.mk.injEq] at h
    obtain ⟨h1, h2⟩ := h
    subst h2
    exact ⟨rfl, rfl, rfl⟩
  · exact absurd h (by simp)

theorem pushVal_heap {v : Value} {s s1 : VMState}
    (h : pushVal v s = .ok s1) :
    s1.heap = s.heap ∧ s1.versions = s.versions ∧ s1.compileLog = s.compileLog := by
  unfold pushVal at h
  split at h
  · rw [Except.ok.injEq] at h
    subst h
    exact ⟨rfl, rfl, rfl⟩
  · exact absurd h (by simp)

theorem step_preserves_jumpAt {prog : List Block} {s : VMState} {o : StepOut}
    {q : Nat} (h : step prog s = .ok o)
    (hq : s.heap[q]? = some (.opcode .jump)) :
    (stepOutState o).heap[q]? = some (.opcode .jump) := by
  unfold step at h
  simp only [] at h
  split at h
  case _ o1 heqop =>
    split at h
    · -- push
      split at h
      · rename_i v heqv
        split at h
        · exact absurd h (by simp)
        · rename_i s2 hpv
          rw [Except.ok.injEq] at h
          subst h
          rw [stepOutState, (pushVal_heap hpv).1]
          exact hq
      · exact absurd h (by simp)
    · -- dup
      split at h
      · rename_i idx heqi
        split at h
        · exact absurd h (by simp)
        · rename_i s2 hpv
          rw [Except.ok.injEq] at h
          subst h
          rw [stepOutState, (pushVal_heap hpv).1]
          exact hq
      · exact absurd h (by simp)
    · -- subI64
      split at h
      · exact absurd h (by simp)
      · rename_i arg1 s1 hpa
        split at h
        · exact absurd h (by simp)
        · rename_i arg0 s2 hpb
          split at h
          · exact absurd h (by simp)
          · rename_i s3 hpc
            rw [Except.ok.injEq] at h
            subst h
            rw [stepOutState, (pushVal_heap hpc).1, (popVal_heap hpb).1,
              (popVal_heap hpa).1]
            exact hq
    · -- ltI64
      split at h
      · exact absurd h (by simp)
      · rename_i arg1 s1 hpa
        split at h
        · exact absurd h (by simp)
        · rename_i arg0 s2 hpb
          split at h
          · exact absurd h (by simp)
          · rename_i s3 hpc
            rw [Except.ok.injEq] at h
            subst h
            rw [stepOutState, (pushVal_heap hpc).1, (popVal_heap hpb).1,
              (popVal_heap hpa).1]
            exact hq
    · -- gtI64
      split at h
      · exact absurd h (by simp)
      · rename_i arg1 s1 hpa
        split at h
        · exact absurd h (by simp)
        · rename_i arg0 s2 hpb
          split at h
          · exact absurd h (by simp)
          · rename_i s3 hpc
            rw [Except.ok.injEq] at h
            subst h
            rw [stepOutState, (pushVal_heap hpc).1, (popVal_heap hpb).1,
              (popVal_heap hpa).1]
            exact hq
    · -- jumpStub
      split at h
      · rename_i a heqa
        split at h
        · exact absurd h (by simp)
        · rename_i hnl
          split at h
          · exact absurd h (by simp)
          · rename_i ver heqver
            split at h
            · -- cached
              rename_i st heqst
              rw [Except.ok.injEq] at h
              subst h
              rw [stepOutState]
              have k1 : (s.heap.set s.instrPtr (.opcode .jump))[q]?
                  = some (.opcode .jump) :=
                set_keeps hq heqop (by simp)
              have k2 : (s.heap.set s.instrPtr (.opcode .jump))[s.instrPtr + 1]?
                  = some (.addr a) := by
                rw [List.getElem?_set_ne (by omega)]
                exact heqa
              exact set_keeps k1 k2 (by simp)
            · -- fresh: compile
              split at h
              · exact absurd h (by simp)
              · rename_i sC hC
                obtain ⟨hp, hl, hg, hvne, hvlen, blk, en, hself⟩ :=
                  compile_ok_spec hC
                split at h
                · exact absurd h (by simp)
                · rename_i ver1 heqv1
                  split at h
                  · exact absurd h (by simp)
                  · rename_i st heqst
                    rw [Except.ok.injEq] at h
                    subst h
                    rw [stepOutState]
                    have k1 : (sC.heap.set s.instrPtr (.opcode .jump))[q]?
                        = some (.opcode .jump) :=
                      set_keeps (hp _ _ hq) (hp _ _ heqop) (by simp)
                    have k2 : (sC.heap.set s.instrPtr
                        (.opcode .jump))[s.instrPtr + 1]? = some (.addr a) := by
                      rw [List.getElem?_set_ne (by omega)]
                      exact hp _ _ heqa
                    exact set_keeps k1 k2 (by simp)
      · exact absurd h (by simp)
    · -- jump
      split at h
      · rename_i a heqa
        rw [Except.ok.injEq] at h
        subst h
        rw [stepOutState]
        exact hq
      · exact absurd h (by simp)
    · -- ifTrue
      split at h
      · rename_i ta heqta
        split at h
        · rename_i ea heqea
          split at h
          · exact absurd h (by simp)
          · rename_i arg0 s1 hpa
            split at h
            · -- then taken
              split at h
              · -- fast path
                rw [Except.ok.injEq] at h
                subst h
                rw [stepOutState, (popVal_heap hpa).1]
                exact hq
              · split at h
                · exact absurd h (by simp)
                · rename_i ver heqver
                  split at h
                  · -- cached
                    rename_i st heqst
                    rw [Except.ok.injEq] at h
                    subst h
                    rw [stepOutState]
                    have hq1 : s1.heap[q]? = some (.opcode .jump) := by
                      rw [(popVal_heap hpa).1]
                      exact hq
                    have hta1 : s1.heap[s.instrPtr + 1]? = some (.addr ta) := by
                      rw [(popVal_heap hpa).1]
                      exact heqta
                    exact set_keeps hq1 hta1 (by simp)
                  · -- fresh
                    split at h
                    · exact absurd h (by simp)
                    · rename_i sC hC
                      obtain ⟨hp, hl, hg, hvne, hvlen, blk, en, hself⟩ :=
                        compile_ok_spec hC
                      split at h
                      · exact absurd h (by simp)
                      · rename_i ver1 heqv1
                        split at h
                        · exact absurd h (by simp)
                        · rename_i st heqst
                          rw [Except.ok.injEq] at h
                          subst h
                          rw [stepOutState]
                          have hq1 : s1.heap[q]? = some (.opcode .jump) := by
                            rw [(popVal_heap hpa).1]
                            exact hq
                          have hta1 : s1.heap[s.instrPtr + 1]?
                              = some (.addr ta) := by
                            rw [(popVal_heap hpa).1]
                            exact heqta
                          exact set_keeps (hp _ _ hq1) (hp _ _ hta1) (by simp)
            · -- else taken
              split at h
              · rw [Except.ok.injEq] at h
                subst h
                rw [stepOutState, (popVal_heap hpa).1]
                exact hq
              · split at h
                · exact absurd h (by simp)
                · rename_i ver heqver
                  split at h
                  · rename_i st heqst
                    rw [Except.ok.injEq] at h
                    subst h
                    rw [stepOutState]
                    have hq1 : s1.heap[q]? = some (.opcode .jump) := by
                      rw [(popVal_heap hpa).1]
                      exact hq
                    have hea1 : s1.heap[s.instrPtr + 2]? = some (.addr ea) := by
                      rw [(popVal_heap hpa).1]
                      exact heqea
                    exact set_keeps hq1 hea1 (by simp)
                  · split at h
                    · exact absurd h (by simp)
                    · rename_i sC hC
                      obtain ⟨hp, hl, hg, hvne, hvlen, blk, en, hself⟩ :=
                        compile_ok_spec hC
                      split at h
                      · exact absurd h (by simp)
                      · rename_i ver1 heqv1
                        split at h
                        · exact absurd h (by simp)
                        · rename_i st heqst
                          rw [Except.ok.injEq] at h
                          subst h
                          rw [stepOutState]
                          have hq1 : s1.heap[q]? = some (.opcode .jump) := by
                            rw [(popVal_heap hpa).1]
                            exact hq
                          have hea1 : s1.heap[s.instrPtr + 2]?
                              = some (.addr ea) := by
                            rw [(popVal_heap hpa).1]
                            exact heqea
                          exact set_keeps (hp _ _ hq1) (hp _ _ hea1) (by simp)
        · exact absurd h (by simp)
      · exact absurd h (by simp)
    · -- ret
      split at h
      · exact absurd h (by simp)
      · rename_i v s1 hpa
        split at h
        · rw [Except.ok.injEq] at h
          subst h
          rw [stepOutState, (popVal_heap hpa).1]
          exact hq
        · exact absurd h (by simp)
  case _ x hne =>
    exact absurd h (by simp)

theorem execLoop_preserves_jumpAt {prog : List Block} {q : Nat} :
    ∀ (fuel : Nat) (s : VMState) (v : Value) (s1 : VMState),
      s.heap[q]? = some (.opcode .jump) →
      execLoop prog fuel s = .ok (v, s1) →
      s1.heap[q]? = some (.opcode .jump) := by
  intro fuel
  induction fuel with
  | zero =>
    intro s v s1 hq h
    exact absurd h (by simp [execLoop])
  | succ n ih =>
    intro s v s1 hq h
    unfold execLoop at h
    split at h
    · exact absurd h (by simp)
    · rename_i v1 s2 hstep
      rw [Except.ok.injEq, Prod.mk.injEq] at h
      obtain ⟨h1, h2⟩ := h
      subst h2
      exact step_preserves_jumpAt hstep hq
    · rename_i s2 hstep
      exact ih s2 v s1 (step_preserves_jumpAt hstep hq) h

theorem execCode_preserves_jumpAt {prog : List Block} {fuel : Nat}
    {s : VMState} {q : Nat} {v : Value} {s1 : VMState}
    (hq : s.heap[q]? = some (.opcode .jump))
    (h : execCode prog fuel s = .ok (v, s1)) :
    s1.heap[q]? = some (.opcode .jump) := by
  unfold execCode at h
  split at h
  · exact execLoop_preserves_jumpAt fuel s v s1 hq h
  · exact absurd h (by simp)

theorem popVal_ok_eq {s : VMState} {v : Value} {s1 : VMState}
    (h : popVal s = .ok (v, s1)) :
    v = s.stackMem s.stackPtr ∧ s1 = { s with stackPtr := s.stackPtr + 1 } := by
  unfold popVal at h
  split at h
  · rw [Except.ok.injEq, Prod.mk.injEq] at h
    obtain ⟨h1, h2⟩ := h
    exact ⟨h1.symm, h2.symm⟩
  · exact absurd h (by simp)

/-- C7 (amended): executing an IF_TRUE whose then and else operands are
distinct words resolves only the taken side: when the then branch is
taken, the stored else operand is never written, the else target's
version entry is untouched and the Compiler is never invoked for it (and
symmetrically for the else branch); an operand is recognized as already
resolved exactly when it falls inside the code heap bounds, in which case
nothing is compiled or patched at all and control transfers directly. -/
theorem c7_amended_only_taken_side_resolved :
    ∀ (prog : List Block) (s : VMState) (ta ea : Nat) (s1 : VMState),
      s.heap[s.instrPtr]? = some (.opcode .ifTrue) →
      s.heap[s.instrPtr + 1]? = some (.addr ta) →
      s.heap[s.instrPtr + 2]? = some (.addr ea) →
      ta ≠ ea →
      step prog s = .ok (.next s1) →
      (s.stackMem s.stackPtr = Value.bool true →
        s1.heap[s.instrPtr + 2]? = some (.addr ea)
        ∧ (∃ newLog : List Nat, s1.compileLog = s.compileLog ++ newLog
            ∧ ∀ ev : Nat, ea = VERSION_BASE + ev → ev ∉ newLog)
        ∧ (∀ ev : Nat, ea = VERSION_BASE + ev → ev < s.versions.length →
            s1.versions[ev]? = s.versions[ev]?)
        ∧ (ta < CODE_HEAP_INIT_SIZE →
            s1 = { s with stackPtr := s.stackPtr + 1, instrPtr := ta }))
      ∧ (s.stackMem s.stackPtr ≠ Value.bool true →
        s1.heap[s.instrPtr + 1]? = some (.addr ta)
        ∧ (∃ newLog : List Nat, s1.compileLog = s.compileLog ++ newLog
            ∧ ∀ tv : Nat, ta = VERSION_BASE + tv → tv ∉ newLog)
        ∧ (∀ tv : Nat, ta = VERSION_BASE + tv → tv < s.versions.length →
            s1.versions[tv]? = s.versions[tv]?)
        ∧ (ea < CODE_HEAP_INIT_SIZE →
            s1 = { s with stackPtr := s.stackPtr + 1, instrPtr := ea })) := by
  intro prog s ta ea s1 h1 h2 h3 hne hstep
  have hvb : VERSION_BASE = 1048576 := rfl
  have hcap : CODE_HEAP_INIT_SIZE = 1048576 := rfl
  unfold step at hstep
  simp only [] at hstep
  rw [h1] at hstep
  simp only [] at hstep
  rw [h2, h3] at hstep
  simp only [] at hstep
  split at hstep
  · exact absurd hstep (by simp)
  · rename_i arg0 sP hpop
    obtain ⟨hargv, hsP⟩ := popVal_ok_eq hpop
    subst hsP
    constructor
    · -- then taken
      intro harg
      have hcond : arg0 = Value.bool true := by rw [hargv]; exact harg
      rw [if_pos hcond] at hstep
      split at hstep
      · -- fast path: then address in code-heap bounds
        rename_i hta
        rw [Except.ok.injEq, StepOut.next.injEq] at hstep
        subst hstep
        refine ⟨h3, ⟨[], by simp, fun ev hev => by simp⟩, ?_, ?_⟩
        · intro ev hev hevlt
          rfl
        · intro hta2
          rfl
      · rename_i hta
        split at hstep
        · exact absurd hstep (by simp)
        · rename_i ver heqver
          split at hstep
          · -- then target already compiled: patch only slot p+1
            rename_i st heqst
            rw [Except.ok.injEq, StepOut.next.injEq] at hstep
            subst hstep
            refine ⟨?_, ⟨[], by simp, fun ev hev => by simp⟩, ?_, ?_⟩
            · rw [List.getElem?_set_ne (by omega)]
              exact h3
            · intro ev hev hevlt
              rfl
            · intro hta2
              exact absurd hta2 hta
          · -- then target compiled now
            split at hstep
            · exact absurd hstep (by simp)
            · rename_i sC hC
              obtain ⟨hp, hl, hg, hvne, hvlen, blk, en, hself⟩ := compile_ok_spec hC
              split at hstep
              · exact absurd hstep (by simp)
              · rename_i ver1 heqv1
                split at hstep
                · exact absurd hstep (by simp)
                · rename_i st heqst
                  rw [Except.ok.injEq, StepOut.next.injEq] at hstep
                  subst hstep
                  refine ⟨?_, ⟨[ta - VERSION_BASE], ?_, ?_⟩, ?_, ?_⟩
                  · rw [List.getElem?_set_ne (by omega)]
                    exact hp _ _ h3
                  · show sC.compileLog = s.compileLog ++ [ta - VERSION_BASE]
                    rw [hg]
                  · intro ev hev
                    simp only [List.mem_singleton]
                    intro heq
                    omega
                  · intro ev hev hevlt
                    exact hvne ev hevlt (by omega)
                  · intro hta2
                    exact absurd hta2 hta
    · -- else taken
      intro harg
      have hcond : ¬ arg0 = Value.bool true := by rw [hargv]; exact harg
      rw [if_neg hcond] at hstep
      split at hstep
      · rename_i hea
        rw [Except.ok.injEq, StepOut.next.injEq] at hstep
        subst hstep
        refine ⟨h2, ⟨[], by simp, fun tv htv => by simp⟩, ?_, ?_⟩
        · intro tv htv htvlt
          rfl
        · intro hea2
          rfl
      · rename_i hea
        split at hstep
        · exact absurd hstep (by simp)
        · rename_i ver heqver
          split at hstep
          · rename_i st heqst
            rw [Except.ok.injEq, StepOut.next.injEq] at hstep
            subst hstep
            refine ⟨?_, ⟨[], by simp, fun tv htv => by simp⟩, ?_, ?_⟩
            · rw [List.getElem?_set_ne (by omega)]
              exact h2
            · intro tv htv htvlt
              rfl
            · intro hea2
              exact absurd hea2 hea
          · split at hstep
            · exact absurd hstep (by simp)
            · rename_i sC hC
              obtain ⟨hp, hl, hg, hvne, hvlen, blk, en, hself⟩ := compile_ok_spec hC
              split at hstep
              · exact absurd hstep (by simp)
              · rename_i ver1 heqv1
                split at hstep
                · exact absurd hstep (by simp)
                · rename_i st heqst
                  rw [Except.ok.injEq, StepOut.next.injEq] at hstep
                  subst hstep
                  refine ⟨?_, ⟨[ea - VERSION_BASE], ?_, ?_⟩, ?_, ?_⟩
                  · rw [List.getElem?_set_ne (by omega)]
                    exact hp _ _ h2
                  · show sC.compileLog = s.compileLog ++ [ea - VERSION_BASE]
                    rw [hg]
                  · intro tv htv
                    simp only [List.mem_singleton]
                    intro heq
                    omega
                  · intro tv htv htvlt
                    exact hvne tv htvlt (by omega)
                  · intro hea2
                    exact absurd hea2 hea

/-- Helper: a successful pushFrame requires the stack pointer to start at
the stack bottom. -/
theorem pushFrame_ok_stackPtr {f : FunObj} {args : List Value} {s s1 : VMState}
    (h : pushFrame f args s = .ok s1) : s.stackPtr = stackBottomIdx := by
  unfold pushFrame at h
  split at h
  · exact absurd h (by simp)
  · split at h
    · exact absurd h (by simp)
    · split at h
      · exact absurd h (by simp)
      · rename_i hc
        exact not_not.mp hc

/-- Helper: compile never raises the unhandled-opcode RunError through
emit (emit only asserts). -/
theorem emit_ne_runError (it : CodeItem) (s : VMState) (e : String) :
    emit it s ≠ .error (.runError e) := by
  unfold emit
  split <;> simp

/-- Helper: a string shorter than the fixed prefix of the
unhandled-opcode message can never equal that message. -/
theorem ne_unhandledMsg {msg : String} (h : msg.length < 33) :
    ∀ op2 : String, msg ≠ unhandledMsg op2 := by
  intro op2 he
  have h2 := congrArg String.length he
  rw [unhandledMsg, String.length_append, String.length_append] at h2
  have h3 : ("unhandled opcode in basic block \"").length = 33 := rfl
  have h4 : ("\"").length = 1 := rfl
  omega

/-- C2: the first execution of a JUMP_STUB instruction compiles the
target version when its code is absent (and only then), overwrites the
opcode in place with JUMP and the operand with the target's start
address, and transfers control there; an already-compiled target is
patched without invoking the Compiler; a patched instruction decodes as
a direct JUMP whose execution never compiles or writes anything; and a
cell holding the JUMP opcode still holds it after any completed run of
the Dispatcher, so later executions of that instruction never re-enter
the stub path. -/
theorem c2_stub_resolved_once_then_direct_jump :
    (∀ (prog : List Block) (s : VMState) (a vid : Nat) (ver : BlockVersion)
        (s1 : VMState),
      s.heap[s.instrPtr]? = some (.opcode .jumpStub) →
      s.heap[s.instrPtr + 1]? = some (.addr a) →
      a = VERSION_BASE + vid →
      s.versions[vid]? = some ver →
      ver.startPtr = none →
      step prog s = .ok (.next s1) →
      s1.heap[s.instrPtr]? = some (.opcode .jump)
      ∧ s1.compileLog = s.compileLog ++ [vid]
      ∧ ∃ st : Nat, s1.heap[s.instrPtr + 1]? = some (.addr st)
          ∧ s1.instrPtr = st
          ∧ ∃ ver1 : BlockVersion, s1.versions[vid]? = some ver1
              ∧ ver1.startPtr = some st)
    ∧ (∀ (prog : List Block) (s : VMState) (a vid : Nat) (ver : BlockVersion)
          (st : Nat),
        s.heap[s.instrPtr]? = some (.opcode .jumpStub) →
        s.heap[s.instrPtr + 1]? = some (.addr a) →
        a = VERSION_BASE + vid →
        s.versions[vid]? = some ver →
        ver.startPtr = some st →
        step prog s = .ok (.next { s with
          heap := (s.heap.set s.instrPtr (.opcode .jump)).set
            (s.instrPtr + 1) (.addr st),
          instrPtr := st }))
    ∧ (∀ (prog : List Block) (s : VMState) (a : Nat),
        s.heap[s.instrPtr]? = some (.opcode .jump) →
        s.heap[s.instrPtr + 1]? = some (.addr a) →
        step prog s = .ok (.next { s with instrPtr := a }))
    ∧ (∀ (prog : List Block) (fuel : Nat) (s : VMState) (q : Nat) (v : Value)
          (s1 : VMState),
        s.heap[q]? = some (.opcode .jump) →
        execCode prog fuel s = .ok (v, s1) →
        s1.heap[q]? = some (.opcode .jump)) :=
  ⟨fun _ _ _ _ _ _ h1 h2 h3 h4 h5 h6 =>
      step_jumpStub_fresh h1 h2 h3 h4 h5 h6,
    fun _ _ _ _ _ _ h1 h2 h3 h4 h5 =>
      step_jumpStub_cached h1 h2 h3 h4 h5,
    fun _ _ _ h1 h2 => step_jump_direct h1 h2,
    fun _ _ _ _ _ _ hq h => execCode_preserves_jumpAt hq h⟩

/-- C2 witness: a direct JUMP at cell 0 with operand 0 executes as a plain
jump, leaving the heap and the compile log untouched. -/
theorem c2_stub_resolved_once_witness :
    step ([] : List Block) jumpProbeState
      = .ok (.next { jumpProbeState with instrPtr := 0 }) :=
  c2_stub_resolved_once_then_direct_jump.2.2.1 [] jumpProbeState 0 rfl rfl

/-- C5 (amended): callFun only asserts that the argument count does not
exceed num_params; exceeding it is a fatal assertion raised before any
code runs. (Fewer arguments than parameters are accepted and the body
executes, per the counterexample.) -/
theorem c5_amended_excess_args_assert :
    ∀ (prog : List Block) (f : FunObj) (args : List Value) (fuel : Nat)
      (s : VMState),
      f.num_params < args.length →
      callFun prog f args fuel s
        = .error (.assertFail "args.size() <= numParams") := by
  intro prog f args fuel s h
  have h1 : ¬ args.length ≤ f.num_params := by omega
  simp [callFun, pushFrame, h1]

/-- C5 witness: one argument for a zero-parameter function dies in the
argument-count assertion. -/
theorem c5_amended_excess_args_assert_witness :
    callFun [] fun0 [Value.undef] 0 initState
      = .error (.assertFail "args.size() <= numParams") :=
  c5_amended_excess_args_assert [] fun0 [Value.undef] 0 initState (by decide)

/-- C6: whenever a top-level callFun returns normally, the stack pointer
is back exactly at its pre-call position, which the entry assertion pins
to the stack bottom — regardless of the control-flow path taken inside
the function (the teardown adjustment plus the balance assertion enforce
it on every successful path). -/
theorem c6_top_level_call_restores_stack_pointer :
    ∀ (prog : List Block) (f : FunObj) (args : List Value) (fuel : Nat)
      (s : VMState) (v : Value) (s1 : VMState),
      callFun prog f args fuel s = .ok (v, s1) →
      s1.stackPtr = s.stackPtr ∧ s1.stackPtr = stackBottomIdx := by
  intro prog f args fuel s v s1 h
  unfold callFun at h
  split at h
  · exact absurd h (by simp)
  · rename_i sF hF
    have hs : s.stackPtr = stackBottomIdx := pushFrame_ok_stackPtr hF
    split at h
    rename_i vid sG hG
    split at h
    · exact absurd h (by simp)
    · split at h
      · exact absurd h (by simp)
      · split at h
        · exact absurd h (by simp)
        · split at h
          · exact absurd h (by simp)
          · split at h
            · exact absurd h (by simp)
            · split at h
              · exact absurd h (by simp)
              · simp only [] at h
                split at h
                · exact absurd h (by simp)
                · rename_i hbal
                  have hb := not_not.mp hbal
                  rw [Except.ok.injEq, Prod.mk.injEq] at h
                  obtain ⟨hv, hsR⟩ := h
                  rw [← hsR]
                  exact ⟨hb.trans hs.symm, hb⟩

/-- C6 witness: the successful push-777 call ends with the stack pointer
where it started. -/
theorem c6_top_level_call_restores_stack_pointer_witness :
    (callFun prog1 fun0 [] 9 initState).map (fun r => r.2.stackPtr)
      = .ok initState.stackPtr := by
  have hok : (callFun prog1 fun0 [] 9 initState).isOk = true := by
    simp [callFun, pushFrame, pushVal, popVal, getBlockVersion, compile, compileInstrs,
        compileInstr, emit, execCode, execLoop, step, writeSlot, copyArgsFrom, initState,
        prog1, prog3, progPushRet, progRetOnly, fun0, fun11, fun22, args22, pushInstr,
        retInstr, dupInstr, subInstr, stackBottomIdx, stackLimitIdx, dupProbeState,
        ifSameState, stepOutState, sizeofWord, CODE_HEAP_INIT_SIZE, VERSION_BASE,
        STACK_INIT_SIZE, toUInt16Nat, int64wrap, wordPtrIsNull, wordInt, unhandledMsg,
        List.lookup, Except.map, Except.bind, Except.isOk, Except.toBool]
  cases hE : callFun prog1 fun0 [] 9 initState with
  | error e =>
    rw [hE] at hok
    simp [Except.isOk, Except.toBool] at hok
  | ok r =>
    obtain ⟨v, s1⟩ := r
    have := c6_top_level_call_restores_stack_pointer prog1 fun0 [] 9 initState
      v s1 hE
    simp [Except.map, this.1]

/-- C7 counterexample: an IF_TRUE whose then and else operands name the
same unresolved version, executed with true on the stack, compiles that
version — i.e. the else target's BlockVersion is compiled during a
then-taken execution (its operand word, cell 2, does stay untouched). -/
theorem c7_same_target_counterexample :
    (step progRetOnly ifSameState).map
        (fun o => ((stepOutState o).compileLog, (stepOutState o).heap[2]?,
                   (stepOutState o).versions.map (fun ver => ver.startPtr)))
      = .ok ([0], some (.addr VERSION_BASE), [some 3]) := by
  simp [callFun, pushFrame, pushVal, popVal, getBlockVersion, compile, compileInstrs,
        compileInstr, emit, execCode, execLoop, step, writeSlot, copyArgsFrom, initState,
        prog1, prog3, progPushRet, progRetOnly, fun0, fun11, fun22, args22, pushInstr,
        retInstr, dupInstr, subInstr, stackBottomIdx, stackLimitIdx, dupProbeState,
        ifSameState, stepOutState, sizeofWord, CODE_HEAP_INIT_SIZE, VERSION_BASE,
        STACK_INIT_SIZE, toUInt16Nat, int64wrap, wordPtrIsNull, wordInt, unhandledMsg,
        List.lookup, Except.map, Except.bind]

/-- C7 witness: from the probe state (resolved then target at address 0,
unresolved else target version 1, true on the stack) the then branch is
taken and the else operand cell 2 still holds the version-1 pointer. -/
theorem c7_amended_only_taken_side_resolved_witness :
    ({ ifProbeState with stackPtr := ifProbeState.stackPtr + 1, instrPtr := 0 } : VMState).heap[ifProbeState.instrPtr + 2]?
      = some (CodeItem.addr (VERSION_BASE + 1)) :=
  ((c7_amended_only_taken_side_resolved progRetOnly ifProbeState 0
      (VERSION_BASE + 1)
      { ifProbeState with stackPtr := ifProbeState.stackPtr + 1, instrPtr := 0 }
      rfl rfl rfl (by decide) rfl).1 rfl).1

/-- C9: compile's instruction schema is closed: an op name outside
{push, dup, sub_i64, lt_i64, gt_i64, jump, if_true, ret} raises exactly
the reported unhandled-opcode RunError (emitting nothing), while a
handled op name can never raise an unhandled-opcode error — any RunError
it raises is a missing-field message, distinguishable from every
unhandled-opcode message. -/
theorem c9_unhandled_opcode_closed_schema :
    (∀ (i : InstrObj) (s : VMState), i.op ∉ handledOps →
      compileInstr i s = .error (.runError (unhandledMsg i.op)))
    ∧ (∀ (i : InstrObj) (s : VMState) (e : String), i.op ∈ handledOps →
        compileInstr i s = .error (.runError e) →
        ∀ op2 : String, e ≠ unhandledMsg op2) := by
  constructor
  · intro i s h
    simp [handledOps] at h
    obtain ⟨h1, h2, h3, h4, h5, h6, h7, h8⟩ := h
    simp [compileInstr, h1, h2, h3, h4, h5, h6, h7, h8]
  · intro i s e hmem hcomp op2
    simp [handledOps] at hmem
    rcases hmem with h | h | h | h | h | h | h | h
    · simp [compileInstr, h] at hcomp
      cases hv : i.val with
      | none =>
        rw [hv] at hcomp
        simp at hcomp
        subst hcomp
        exact ne_unhandledMsg (by decide) op2
      | some v =>
        rw [hv] at hcomp
        simp at hcomp
        split at hcomp
        · rename_i e1 heq
          simp at hcomp
          rw [hcomp] at heq
          exact (emit_ne_runError _ _ _ heq).elim
        · exact (emit_ne_runError _ _ _ hcomp).elim
    · simp [compileInstr, h] at hcomp
      cases hv : i.idx with
      | none =>
        rw [hv] at hcomp
        simp at hcomp
        subst hcomp
        exact ne_unhandledMsg (by decide) op2
      | some n =>
        rw [hv] at hcomp
        simp at hcomp
        split at hcomp
        · rename_i e1 heq
          simp at hcomp
          rw [hcomp] at heq
          exact (emit_ne_runError _ _ _ heq).elim
        · exact (emit_ne_runError _ _ _ hcomp).elim
    · simp [compileInstr, h] at hcomp
      exact absurd hcomp (emit_ne_runError _ _ _)
    · simp [compileInstr, h] at hcomp
      exact absurd hcomp (emit_ne_runError _ _ _)
    · simp [compileInstr, h] at hcomp
      exact absurd hcomp (emit_ne_runError _ _ _)
    · simp [compileInstr, h] at hcomp
      cases hv : i.toBlk with
      | none =>
        rw [hv] at hcomp
        simp at hcomp
        subst hcomp
        exact ne_unhandledMsg (by decide) op2
      | some b =>
        rw [hv] at hcomp
        simp at hcomp
        split at hcomp
        · rename_i e1 heq
          simp at hcomp
          rw [hcomp] at heq
          exact (emit_ne_runError _ _ _ heq).elim
        · exact (emit_ne_runError _ _ _ hcomp).elim
    · simp [compileInstr, h] at hcomp
      cases hv : i.thenBlk with
      | none =>
        rw [hv] at hcomp
        simp at hcomp
        subst hcomp
        exact ne_unhandledMsg (by decide) op2
      | some tb =>
        rw [hv] at hcomp
        cases hv2 : i.elseBlk with
        | none =>
          rw [hv2] at hcomp
          simp at hcomp
          subst hcomp
          exact ne_unhandledMsg (by decide) op2
        | some eb =>
          rw [hv2] at hcomp
          simp at hcomp
          split at hcomp
          · rename_i e1 heq
            simp at hcomp
            rw [hcomp] at heq
            exact (emit_ne_runError _ _ _ heq).elim
          · split at hcomp
            · rename_i e1 heq
              simp at hcomp
              rw [hcomp] at heq
              exact (emit_ne_runError _ _ _ heq).elim
            · exact (emit_ne_runError _ _ _ hcomp).elim
    · simp [compileInstr, h] at hcomp
      exact absurd hcomp (emit_ne_runError _ _ _)

/-- C9 witness: the Dispatcher-known op add_i64 is not handled by compile
and raises the unhandled-opcode error. -/
theorem c9_unhandled_opcode_closed_schema_witness :
    compileInstr addInstr initState
      = .error (.runError (unhandledMsg "add_i64")) :=
  c9_unhandled_opcode_closed_schema.1 addInstr initState (by decide)

/-- C10: the usable depth of the value stack after initInterp is
stackBottom - stackLimit = sizeof(Word) = 8 Value slots, although
STACK_INIT_SIZE = 2^16 slots were allocated (and recorded in stackSize);
consequently the locals-reservation guard stackPtr >= stackLimit in
callFun fails for every function declaring more than sizeof(Word) - 2
locals, any such top-level call dying in that assertion. -/
theorem c10_usable_stack_depth_eight :
    (stackBottomIdx - stackLimitIdx = sizeofWord)
    ∧ sizeofWord = 8
    ∧ STACK_INIT_SIZE = 2 ^ 16
    ∧ initState.stackSize = STACK_INIT_SIZE
    ∧ sizeofWord ≠ STACK_INIT_SIZE
    ∧ (∀ (prog : List Block) (f : FunObj) (args : List Value) (fuel : Nat),
        args.length ≤ f.num_params → f.num_params ≤ f.num_locals →
        sizeofWord - 2 < f.num_locals →
        callFun prog f args fuel initState
          = .error (.assertFail "stackPtr >= stackLimit")) := by
  refine ⟨rfl, rfl, rfl, rfl, by decide, ?_⟩
  intro prog f args fuel h1 h2 h3
  have h5 : ¬ f.num_locals ≤ 6 := by
    simp [sizeofWord] at h3
    omega
  simp [callFun, pushFrame, pushVal, initState, writeSlot, stackBottomIdx,
        stackLimitIdx, sizeofWord, STACK_INIT_SIZE, h1, h2, h5]

/-- C10 witness: a zero-parameter function with 7 locals dies in the
stack-limit assertion. -/
theorem c10_usable_stack_depth_eight_witness :
    callFun [] { num_params := 0, num_locals := 7, entry := 0 } [] 0 initState
      = .error (.assertFail "stackPtr >= stackLimit") :=
  c10_usable_stack_depth_eight.2.2.2.2.2 []
    { num_params := 0, num_locals := 7, entry := 0 } [] 0 (by decide) (by decide)
    (by decide)

/-- C8 witness: the push-v function returns v at a non-integer literal
too. -/
theorem c8_push_ret_returns_pushed_value_witness :
    (callFun (progPushRet (Value.bool false)) fun0 [] 9 initState).map Prod.fst
      = .ok (Value.bool false) :=
  c8_push_ret_returns_pushed_value.1 (Value.bool false)

end ZetaVM
